import Mathlib

/-!
Shallow embedding of the speech-bubble text layout engine
(`speech_bubblifier.py`): the mask row scanner, block-row decomposer,
greedy word packer and placer, modelled faithfully including Python 2
semantics (negative list indexing, truthiness of `0` and `None`,
`None < int` comparisons, and `None - int` raising `TypeError`).
Coordinates are `Int`; floats in the placer are exact half-integers and
are modelled by `Rat`.
-/

/-- Errors a layout invocation can surface.  The first three are the typed
failures of the plugin (`NoSelectionError`, `InvalidRowError`,
`SelectionSizeError`); the rest model untyped Python exceptions. -/
inductive PyErr where
  | noSelection
  | invalidRow
  | selectionSize
  | typeError
  | indexError
  | stopIteration
  deriving DecidableEq, Repr

deriving instance DecidableEq for Except

/-- `range(a, b)` of Python, over `Int`. -/
def intRange (a b : Int) : List Int :=
  (List.range (b - a).toNat).map (fun i => a + i)

/-- `range(a, b, -1)` of Python, over `Int`: `a, a-1, ..., b+1`. -/
def intRangeDown (a b : Int) : List Int :=
  (List.range (a - b).toNat).map (fun i => a - i)

/-- Python list indexing `l[i]`, including negative indices counting from
the end; `none` models `IndexError`. -/
def pyListGet (l : List α) (i : Int) : Option α :=
  let j : Int := if i < 0 then (l.length : Int) + i else i
  if j < 0 then none else l[j.toNat]?

/-- Parameters of one `SpeechBubble` construction: the selection mask as a
membership predicate plus the constructor arguments. -/
structure SBParams where
  mask : Int → Int → Bool
  xMin : Int
  yMin0 : Int
  xMax : Int
  yMax0 : Int
  rowHeight : Int
  spaceWidth : Int
  hOff : Int
  vOff : Int

/-- `self.y_min = y_min + vertical_offset`. -/
def SBParams.yMin (p : SBParams) : Int := p.yMin0 + p.vOff

/-- `self.y_max = y_max - vertical_offset`. -/
def SBParams.yMax (p : SBParams) : Int := p.yMax0 - p.vOff

/-- `self.height = y_max - y_min` (computed from the unadjusted bounds). -/
def SBParams.height (p : SBParams) : Int := p.yMax0 - p.yMin0

/-- One iteration of `_compute_pixel_row_bounds` for scan line `y`: the
forward scan `range(x_min, x_max)` yields `bound_min`; if it finds nothing
the row's entry is `None` and the backward scan is skipped; otherwise the
backward scan `range(x_max, x_min, -1)` yields `bound_max` (which can be
`None`, since that range tests neither below `x_min + 1` nor records a miss). -/
def scanPixelRow (mask : Int → Int → Bool) (xmin xmax y : Int) :
    Option (Int × Option Int) :=
  match (intRange xmin xmax).find? (fun x => mask x y) with
  | none => none
  | some bmin => some (bmin, (intRangeDown xmax xmin).find? (fun x => mask x y))

/-- `_compute_pixel_row_bounds`: one entry per `y` in `[y_min, y_max)`. -/
def computePixelRowBounds (p : SBParams) : List (Option (Int × Option Int)) :=
  (intRange p.yMin p.yMax).map (fun y => scanPixelRow p.mask p.xMin p.xMax y)

/-- `get_pixel_row_bounds`: indexes the cached list at `pixel_row - y_min`
with Python indexing semantics; `IndexError` is converted to
`InvalidRowError`. -/
def getPixelRowBounds (p : SBParams) (pixelRow : Int) :
    Except PyErr (Option (Int × Option Int)) :=
  match pyListGet (computePixelRowBounds p) (pixelRow - p.yMin) with
  | some b => .ok b
  | none => .error .invalidRow

/-- A `BlockRow` as built by `_compute_horizontal_bounds`. -/
structure Row where
  top : Int
  bottom : Int
  left : Option Int
  right : Option Int
  width : Int
  deriving DecidableEq, Repr

/-- Python truthiness of an optional int: `None` and `0` are falsy. -/
def pyFalsy : Option Int → Bool
  | none => true
  | some v => v == 0

/-- Python 2 comparison `b < r` where `b` may be `None` (`None` compares
less than every int in Python 2). -/
def py2LtOpt : Option Int → Int → Bool
  | none, _ => true
  | some v, r => decide (v < r)

/-- The update `if not self.left or bounds[0] > self.left: self.left =
bounds[0] + horizontal_offset`. -/
def updLeft (hoff : Int) (l : Option Int) (b0 : Int) : Option Int :=
  if pyFalsy l || decide (l.getD 0 < b0) then some (b0 + hoff) else l

/-- `if self.left and self.right and self.right > self.left: self.width =
self.right - self.left` (else the width stays `0`). -/
def finalWidth (l r : Option Int) : Int :=
  if pyFalsy l || pyFalsy r then 0
  else if l.getD 0 < r.getD 0 then r.getD 0 - l.getD 0 else 0

/-- The loop of `_compute_horizontal_bounds` over scan lines, threading the
`left`/`right` state.  A `None` row entry returns early with width `0`.
The right-bound update `if not self.right or bounds[1] < self.right:
self.right = bounds[1] - horizontal_offset` raises `TypeError` whenever it
fires with `bounds[1] = None`. -/
def computeHorizontalBounds
    (boundsAt : Int → Except PyErr (Option (Int × Option Int))) (hoff : Int) :
    List Int → Option Int → Option Int →
    Except PyErr (Option Int × Option Int × Int)
  | [], l, r => .ok (l, r, finalWidth l r)
  | y :: ys, l, r =>
      match boundsAt y with
      | .error e => .error e
      | .ok none => .ok (l, r, 0)
      | .ok (some (b0, b1)) =>
          let l2 := updLeft hoff l b0
          if pyFalsy r || py2LtOpt b1 (r.getD 0) then
            match b1 with
            | none => .error .typeError
            | some v => computeHorizontalBounds boundsAt hoff ys l2 (some (v - hoff))
          else computeHorizontalBounds boundsAt hoff ys l2 r

/-- `BlockRow.__init__`: a block row of the given height starting at `top`. -/
def blockRowOf (boundsAt : Int → Except PyErr (Option (Int × Option Int)))
    (hoff top height : Int) : Except PyErr Row :=
  match computeHorizontalBounds boundsAt hoff (intRange top (top + height))
      none none with
  | .error e => .error e
  | .ok (l, r, w) => .ok ⟨top, top + height, l, r, w⟩

/-- The loop of `_compute_block_rows`: step `i` appends the two even rows,
and the two odd rows when `odd_row_higher >= self.y_min`. -/
def computeBlockRowsGo (p : SBParams) (centre rhf rhc : Int) :
    Nat → Nat → List Row → List Row → Except PyErr (List Row × List Row)
  | _, 0, odd, even => .ok (odd, even)
  | i, Nat.succ k, odd, even =>
      let evenHTop := centre - ((i : Int) + 1) * p.rowHeight
      let evenLTop := centre + (i : Int) * p.rowHeight
      match blockRowOf (getPixelRowBounds p) p.hOff evenHTop p.rowHeight with
      | .error e => .error e
      | .ok eH =>
        match blockRowOf (getPixelRowBounds p) p.hOff evenLTop p.rowHeight with
        | .error e => .error e
        | .ok eL =>
          if evenHTop - rhf ≥ p.yMin then
            match blockRowOf (getPixelRowBounds p) p.hOff (evenHTop - rhf)
                p.rowHeight with
            | .error e => .error e
            | .ok oH =>
              match blockRowOf (getPixelRowBounds p) p.hOff (evenLTop + rhc)
                  p.rowHeight with
              | .error e => .error e
              | .ok oL =>
                  computeBlockRowsGo p centre rhf rhc (i + 1) k
                    (odd ++ [oH, oL]) (even ++ [eH, eL])
          else
            computeBlockRowsGo p centre rhf rhc (i + 1) k odd (even ++ [eH, eL])

/-- `_compute_block_rows`: the odd family starts with the single central
row; `num_steps = floor(0.5 * (height // row_height))` further steps grow
both families outward. -/
def computeBlockRows (p : SBParams) : Except PyErr (List Row × List Row) :=
  let centre := (p.yMin + p.yMax).fdiv 2
  let ns := ((p.height).fdiv p.rowHeight).fdiv 2
  let rhf := p.rowHeight.fdiv 2
  let rhc := (p.rowHeight + 1).fdiv 2
  match blockRowOf (getPixelRowBounds p) p.hOff (centre - rhf) p.rowHeight with
  | .error e => .error e
  | .ok c => computeBlockRowsGo p centre rhf rhc 0 ns.toNat [c] []

/-- The index sequence yielded by `_get_block_rows(n)`:
`[n-2, n-4, ...]`, the central index `0` when `n` is odd, then
`[..., n-3, n-1]`. -/
def genIndices (n : Nat) : List Nat :=
  ((List.range (n / 2)).map (fun i => n - 2 * i - 2)) ++
  (if n % 2 == 1 then [0] else []) ++
  (((List.range (n / 2)).reverse).map (fun i => n - 2 * i - 1))

/-- `_get_block_rows(n)` as the lazily consumed generator: the family is
chosen by the parity of `n`, and each yield is the list lookup
`block_rows[index]`, which raises `IndexError` when out of range. -/
def getBlockRows (odd even : List Row) (n : Nat) : List (Except PyErr Row) :=
  let fam := if n % 2 == 0 then even else odd
  (genIndices n).map
    (fun i => match fam[i]? with
      | some r => .ok r
      | none => .error .indexError)

/-- The `while cumulative_word_width > block_row.width` loop of
`place_words`: advance through the generator, resetting the running width
to the overflowing word's width, until a row admits the word or the
generator ends (`StopIteration`, modelled as `ok none`). -/
def advanceFind (w : Int) : List (Except PyErr Row) →
    Except PyErr (Option (Row × List (Except PyErr Row)))
  | [] => .ok none
  | .error e :: _ => .error e
  | .ok r :: rest =>
      if w ≤ r.width then .ok (some (r, rest)) else advanceFind w rest

/-- The word loop of `place_words` for one candidate row count: `cum` is
`cumulative_word_width`, `curWs` the words already in the current row
(recorded in `word_layers_by_row` only once nonempty), `acc` the closed
rows.  Appending a word adds `space_width` to the running width. -/
def packGo (s : Int) : List Int → Row → List (Except PyErr Row) → Int →
    List Int → List (Row × List Int) →
    Except PyErr (Option (List (Row × List Int)))
  | [], cur, _, _, curWs, acc =>
      .ok (some (acc ++ if curWs = [] then [] else [(cur, curWs)]))
  | w :: ws, cur, gen, cum, curWs, acc =>
      if cum + w ≤ cur.width then
        packGo s ws cur gen (cum + w + s) (curWs ++ [w]) acc
      else
        match advanceFind w gen with
        | .error e => .error e
        | .ok none => .ok none
        | .ok (some (r, rest)) =>
            packGo s ws r rest (w + s) [w]
              (acc ++ if curWs = [] then [] else [(cur, curWs)])

/-- One packing attempt: `block_row = next(block_row_generator)` runs
before the word loop (so a leading `IndexError` from the generator
propagates), then the loop starts with `cumulative_word_width = 0`. -/
def packWords (s : Int) (gen : List (Except PyErr Row)) (words : List Int) :
    Except PyErr (Option (List (Row × List Int))) :=
  match gen with
  | [] => .error .stopIteration
  | .error e :: _ => .error e
  | .ok r :: rest => packGo s words r rest 0 [] []

/-- The scan of `_get_min_num_rows` over one family: at the first index
whose cumulative width reaches the total word width, return `index + 1`
when `cond index` holds and `index + 2` otherwise (the source uses
`index % 2 == 0` for the even family and `index % 2 == 1` for the odd). -/
def minScanRows (cond : Nat → Bool) (total : Int) :
    List Row → Nat → Int → Option Nat
  | [], _, _ => none
  | r :: rs, idx, cum =>
      if total ≤ cum + r.width then
        some (if cond idx then idx + 1 else idx + 2)
      else minScanRows cond total rs (idx + 1) (cum + r.width)

/-- `_get_min_num_rows`: combine the two family scans exactly as the
source does. -/
def getMinNumRows (odd even : List Row) (total : Int) : Option Nat :=
  let mEven := minScanRows (fun i => i % 2 == 0) total even 0 0
  let mOdd := minScanRows (fun i => i % 2 == 1) total odd 0 0
  match mEven, mOdd with
  | none, mo => mo
  | some me, none => some me
  | some me, some mo => some (min mo me)

/-- The `for num_rows in range(...)` search of `place_words`: a candidate
that merely runs out of rows moves on to the next; any other exception
propagates; exhausting the candidates raises `SelectionSizeError`. -/
def searchLoop (s : Int) (odd even : List Row) (words : List Int) :
    List Nat → Except PyErr (List (Row × List Int))
  | [] => .error .selectionSize
  | n :: ns =>
      match packWords s (getBlockRows odd even n) words with
      | .error e => .error e
      | .ok (some a) => .ok a
      | .ok none => searchLoop s odd even words ns

/-- One full layout invocation: `SpeechBubble.__init__` (scan plus block
row decomposition) followed by `place_words`, whose candidate row counts
are `range(min_num_rows, max_num_rows)`. -/
def layout (p : SBParams) (words : List Int) :
    Except PyErr (List (Row × List Int)) :=
  match computeBlockRows p with
  | .error e => .error e
  | .ok (odd, even) =>
      match getMinNumRows odd even words.sum with
      | none => .error .selectionSize
      | some minN =>
          searchLoop p.spaceWidth odd even words
            ((List.range (max odd.length even.length - minN)).map
              (fun i => minN + i))

/-- The inner loop of `_place_words`: successive word positions, each the
pair passed to `move_to` (x is a Python float, here an exact `Rat`;
y is the block row's `top`). -/
def placeRowGo (s : Int) (top : Int) : Rat → List Int → List (Rat × Int)
  | _, [] => []
  | t, w :: ws => (t, top) :: placeRowGo s top (t + (w : Rat) + (s : Rat)) ws

/-- One band of `_place_words`: `text_start = block_row.left + 0.5 *
int(math.floor(block_row.width - total_word_width))` where
`total_word_width` is the plain sum of the word widths; `none` models the
`TypeError` when `block_row.left` is `None`. -/
def placeRowWords (s : Int) (row : Row) (ws : List Int) :
    Option (List (Rat × Int)) :=
  match row.left with
  | none => none
  | some l =>
      some (placeRowGo s row.top
        ((l : Rat) + (1 / 2) * ((row.width - ws.sum : Int) : Rat)) ws)

/-- The mask queries issued while scanning one direction of one row: every
tested x up to and including the first hit (all of them when none hits). -/
def queriedCols (q : Int → Bool) : List Int → List Int
  | [] => []
  | x :: xs => if q x then [x] else x :: queriedCols q xs

/-- All mask membership queries of `_compute_pixel_row_bounds` for scan
line `y`: the forward queries, then (only when the forward scan hit) the
backward queries starting from `x_max`. -/
def scanRowQueries (mask : Int → Int → Bool) (xmin xmax y : Int) :
    List (Int × Int) :=
  let q := fun x => mask x y
  (queriedCols q (intRange xmin xmax)).map (fun x => (x, y)) ++
  (if (intRange xmin xmax).any q then
    (queriedCols q (intRangeDown xmax xmin)).map (fun x => (x, y))
  else [])

/-- All mask membership queries of the whole row scan. -/
def scanQueries (mask : Int → Int → Bool) (xmin xmax ymin ymax : Int) :
    List (Int × Int) :=
  ((intRange ymin ymax).map (scanRowQueries mask xmin xmax)).flatten

/-! Concrete instances used to settle the claims. -/

/-- A mask whose rows 0-1 span x ∈ [1, 11] and rows 2-3 span x ∈ [1, 5]:
its even family has two bands (widths 10 and 4) but its odd family only
the narrow central band (width 4). -/
def maskNW (x y : Int) : Bool :=
  decide ((0 ≤ y ∧ y ≤ 1 ∧ 1 ≤ x ∧ x ≤ 11) ∨ (2 ≤ y ∧ y ≤ 3 ∧ 1 ≤ x ∧ x ≤ 5))

/-- Selection bounds x ∈ [1, 12), y ∈ [0, 4), row height 2, space width 1,
no margins, over `maskNW`. -/
def pNW : SBParams := ⟨maskNW, 1, 0, 12, 4, 2, 1, 0, 0⟩

/-- The upper even band of `pNW` (rows 0-1). -/
def rowNW0 : Row := ⟨0, 2, some 1, some 11, 10⟩

/-- The lower even band of `pNW` (rows 2-3). -/
def rowNW1 : Row := ⟨2, 4, some 1, some 5, 4⟩

/-- The central odd band of `pNW` (rows 1-2). -/
def rowNWodd : Row := ⟨1, 3, some 1, some 5, 4⟩

/-- The odd family of `pNW`. -/
def oddNW : List Row := [rowNWodd]

/-- The even family of `pNW`. -/
def evenNW : List Row := [rowNW0, rowNW1]

/-- A diamond-shaped mask on y ∈ [0, 8): row widths narrow toward the top
and bottom, widest at the central rows 3-4 (x ∈ [2, 14]). -/
def maskDia (x y : Int) : Bool :=
  decide (((y = 0 ∨ y = 7) ∧ 5 ≤ x ∧ x ≤ 6) ∨
          ((y = 1 ∨ y = 6) ∧ 4 ≤ x ∧ x ≤ 8) ∨
          ((y = 2 ∨ y = 5) ∧ 3 ≤ x ∧ x ≤ 10) ∨
          ((y = 3 ∨ y = 4) ∧ 2 ≤ x ∧ x ≤ 14))

/-- Selection bounds x ∈ [2, 15), y ∈ [0, 8), row height 2, space width 1,
no margins, over the diamond mask. -/
def pDia : SBParams := ⟨maskDia, 2, 0, 15, 8, 2, 1, 0, 0⟩

/-- The central odd band of the diamond (rows 3-4), width 12. -/
def rowDiaC : Row := ⟨3, 5, some 2, some 14, 12⟩

/-- The upper outer odd band of the diamond (rows 1-2). -/
def rowDiaO1 : Row := ⟨1, 3, some 4, some 8, 4⟩

/-- The lower outer odd band of the diamond (rows 5-6). -/
def rowDiaO2 : Row := ⟨5, 7, some 4, some 8, 4⟩

/-- The inner upper even band of the diamond (rows 2-3). -/
def rowDiaE0 : Row := ⟨2, 4, some 3, some 10, 7⟩

/-- The inner lower even band of the diamond (rows 4-5). -/
def rowDiaE1 : Row := ⟨4, 6, some 3, some 10, 7⟩

/-- The outer upper even band of the diamond (rows 0-1). -/
def rowDiaE2 : Row := ⟨0, 2, some 5, some 6, 1⟩

/-- The outer lower even band of the diamond (rows 6-7). -/
def rowDiaE3 : Row := ⟨6, 8, some 5, some 6, 1⟩

/-- The odd family of the diamond. -/
def oddDia : List Row := [rowDiaC, rowDiaO1, rowDiaO2]

/-- The even family of the diamond. -/
def evenDia : List Row := [rowDiaE0, rowDiaE1, rowDiaE2, rowDiaE3]

/-- A mask that is a single pixel column at x = 3 over rows 0-3. -/
def maskCol (x y : Int) : Bool :=
  decide (x = 3 ∧ 0 ≤ y ∧ y ≤ 3)

/-- Selection bounds x ∈ [3, 4), y ∈ [0, 4), row height 2, space width 1,
no margins, over the single-column mask. -/
def pCol : SBParams := ⟨maskCol, 3, 0, 4, 4, 2, 1, 0, 0⟩

/-- A mask whose single row 0 spans x ∈ [0, 10]: its left bound is the
coordinate 0. -/
def maskZ (x y : Int) : Bool :=
  decide (y = 0 ∧ 0 ≤ x ∧ x ≤ 10)

/-- Selection bounds x ∈ [0, 11), y ∈ [0, 1), row height 1, over `maskZ`. -/
def pZ : SBParams := ⟨maskZ, 0, 0, 11, 1, 1, 1, 0, 0⟩

/-- A mask with row 0 spanning x ∈ [0, 10] and row 1 spanning x ∈ [2, 9]. -/
def maskMono (x y : Int) : Bool :=
  decide ((y = 0 ∧ 0 ≤ x ∧ x ≤ 10) ∨ (y = 1 ∧ 2 ≤ x ∧ x ≤ 9))

/-- Selection bounds x ∈ [0, 11), y ∈ [0, 2), row height 1, over
`maskMono`. -/
def pMono : SBParams := ⟨maskMono, 0, 0, 11, 2, 1, 1, 0, 0⟩

/-- A one-row mask on at x ∈ {1, 2} with declared bounds x ∈ [1, 3). -/
def maskQ (x y : Int) : Bool :=
  decide (y = 0 ∧ (x = 1 ∨ x = 2))

/-- A band used to exercise the placer: left 20, right 120, width 100. -/
def rowWide : Row := ⟨7, 9, some 20, some 120, 100⟩

/-! Helper lemmas for the no-overflow invariant of the greedy packer. -/

/-- A row found by the advance loop admits the overflowing word alone. -/
theorem advanceFind_le (w : Int) :
    ∀ (gen : List (Except PyErr Row)) (r : Row)
      (rest : List (Except PyErr Row)),
      advanceFind w gen = .ok (some (r, rest)) → w ≤ r.width := by
  intro gen
  induction gen with
  | nil =>
      intro r rest h
      simp [advanceFind] at h
  | cons g gs ih =>
      intro r rest h
      cases g with
      | error e => simp [advanceFind] at h
      | ok row =>
          rw [advanceFind] at h
          by_cases hw : w ≤ row.width
          · rw [if_pos hw] at h
            cases h
            exact hw
          · rw [if_neg hw] at h
            exact ih r rest h

/-- A committed band is nonempty and its occupants fit:
`sum of widths + space_width * (count - 1) ≤ band width`. -/
def goodGroup (s : Int) (g : Row × List Int) : Prop :=
  g.2 ≠ [] ∧ g.2.sum + s * ((g.2.length : Int) - 1) ≤ g.1.width

/-- Invariant of the word loop of `place_words`: whenever the loop returns
an assignment, every band in it satisfies `goodGroup`. -/
theorem packGo_good (s : Int) :
    ∀ (ws : List Int) (cur : Row) (gen : List (Except PyErr Row)) (cum : Int)
      (curWs : List Int) (acc : List (Row × List Int))
      (asg : List (Row × List Int)),
      (∀ g ∈ acc, goodGroup s g) →
      (curWs ≠ [] →
        curWs.sum + s * ((curWs.length : Int) - 1) ≤ cur.width) →
      cum = curWs.sum + s * (curWs.length : Int) →
      packGo s ws cur gen cum curWs acc = .ok (some asg) →
      ∀ g ∈ asg, goodGroup s g := by
  intro ws
  induction ws with
  | nil =>
      intro cur gen cum curWs acc asg hacc hcur _ hp g hg
      rw [packGo] at hp
      cases hp
      rcases List.mem_append.1 hg with hg1 | hg2
      · exact hacc g hg1
      · by_cases hne : curWs = []
        · rw [if_pos hne] at hg2
          simp at hg2
        · rw [if_neg hne] at hg2
          rcases List.mem_singleton.1 hg2 with rfl
          exact ⟨hne, hcur hne⟩
  | cons w ws ih =>
      intro cur gen cum curWs acc asg hacc hcur hcum hp
      rw [packGo] at hp
      by_cases hle : cum + w ≤ cur.width
      · rw [if_pos hle] at hp
        refine ih cur gen (cum + w + s) (curWs ++ [w]) acc asg hacc ?_ ?_ hp
        · intro _
          have hlen : (((curWs ++ [w]).length : Int) - 1)
              = (curWs.length : Int) := by
            simp
          rw [hlen, List.sum_append]
          have hsum : curWs.sum + [w].sum + s * (curWs.length : Int)
              = cum + w := by
            rw [hcum]; simp; ring
          rw [hsum]
          exact hle
        · rw [List.sum_append, hcum]
          simp
          ring
      · rw [if_neg hle] at hp
        cases hadv : advanceFind w gen with
        | error e =>
            rw [hadv] at hp
            cases hp
        | ok o =>
            cases o with
            | none =>
                rw [hadv] at hp
                cases hp
            | some pr =>
                obtain ⟨r, rest⟩ := pr
                rw [hadv] at hp
                refine ih r rest (w + s) [w]
                  (acc ++ if curWs = [] then [] else [(cur, curWs)]) asg
                  ?_ ?_ ?_ hp
                · intro g hg
                  rcases List.mem_append.1 hg with hg1 | hg2
                  · exact hacc g hg1
                  · by_cases hne : curWs = []
                    · rw [if_pos hne] at hg2
                      simp at hg2
                    · rw [if_neg hne] at hg2
                      rcases List.mem_singleton.1 hg2 with rfl
                      exact ⟨hne, hcur hne⟩
                · intro _
                  have := advanceFind_le w gen r rest hadv
                  simpa using this
                · simp

/-- One packing attempt returns only `goodGroup` bands. -/
theorem packWords_good (s : Int) (gen : List (Except PyErr Row))
    (words : List Int) (asg : List (Row × List Int))
    (h : packWords s gen words = .ok (some asg)) :
    ∀ g ∈ asg, goodGroup s g := by
  cases gen with
  | nil => simp [packWords] at h
  | cons g0 gs =>
      cases g0 with
      | error e => simp [packWords] at h
      | ok r =>
          rw [packWords] at h
          refine packGo_good s words r gs 0 [] [] asg ?_ ?_ ?_ h
          · intro g hg
            simp at hg
          · intro hne
            simp at hne
          · simp

/-- The candidate search commits only assignments whose bands all satisfy
`goodGroup`. -/
theorem searchLoop_good (s : Int) (odd even : List Row) (words : List Int) :
    ∀ (ns : List Nat) (asg : List (Row × List Int)),
      searchLoop s odd even words ns = .ok asg →
      ∀ g ∈ asg, goodGroup s g := by
  intro ns
  induction ns with
  | nil =>
      intro asg h
      simp [searchLoop] at h
  | cons n ns ih =>
      intro asg h
      rw [searchLoop] at h
      cases hp : packWords s (getBlockRows odd even n) words with
      | error e =>
          rw [hp] at h
          cases h
      | ok o =>
          cases o with
          | none =>
              rw [hp] at h
              exact ih asg h
          | some a =>
              rw [hp] at h
              cases h
              exact packWords_good s (getBlockRows odd even n) words _ hp

/-- C8: for every committed assignment of a layout invocation, every band
holds words whose total width plus `space_width * (count - 1)` is at most
the band's width — the packer never commits an overflowing band. -/
theorem layout_no_overflow (p : SBParams) (words : List Int)
    (asg : List (Row × List Int)) (h : layout p words = .ok asg) :
    ∀ g ∈ asg,
      g.2.sum + p.spaceWidth * ((g.2.length : Int) - 1) ≤ g.1.width := by
  rw [layout] at h
  split at h
  · cases h
  · split at h
    · cases h
    · intro g hg
      exact (searchLoop_good p.spaceWidth _ _ words _ asg h g hg).2

/-- Witness for C8: the diamond layout commits the single word of width 10
to the central band, and the inequality holds there. -/
theorem layout_no_overflow_witness :
    [(10 : Int)].sum
      + pDia.spaceWidth * (([(10 : Int)].length : Int) - 1) ≤ rowDiaC.width :=
  layout_no_overflow pDia [10] [(rowDiaC, [10])] (by decide)
    (rowDiaC, [10]) (by simp)

/-- C1: refuted. `place_words` iterates `range(min_num_rows, max_num_rows)`,
which excludes the candidate `n = max(len(odd), len(even))`.  On `pNW` the
computed `min_num_rows` is 1, `max_num_rows` is 2, the greedy pass fails at
`n = 1` but succeeds at `n = 2`; the code nevertheless raises
`SelectionSizeError` instead of committing the `n = 2` placement. -/
theorem c1_band_search_excludes_max :
    computeBlockRows pNW = .ok (oddNW, evenNW) ∧
    getMinNumRows oddNW evenNW (List.sum [6, 4]) = some 1 ∧
    max oddNW.length evenNW.length = 2 ∧
    packWords 1 (getBlockRows oddNW evenNW 1) [6, 4] = .ok none ∧
    packWords 1 (getBlockRows oddNW evenNW 2) [6, 4]
      = .ok (some [(rowNW0, [6]), (rowNW1, [4])]) ∧
    layout pNW [6, 4] = .error .selectionSize := by
  decide

/-- C2: refuted. `_place_words` computes `text_start` from the sum of the
word widths alone, omitting `space_width * (count - 1)`.  For a band with
left 20, right 120, width 100, two words of width 10 and space width 10,
the group starts at 60 (the claim's formula gives 20 + 35 = 55), so the
left gap is 40 while the right gap is 30 — off by 10, beyond rounding. -/
theorem c2_centering_omits_spaces :
    placeRowWords 10 rowWide [10, 10]
      = some [((60 : Rat), 7), ((80 : Rat), 7)] ∧
    ((60 : Rat) - 20) - (120 - (80 + 10)) = 10 ∧
    (20 : Int) + (100 - (10 + 10 + 10 * (2 - 1))) / 2 = 55 := by
  refine ⟨?_, by norm_num, by decide⟩
  norm_num [placeRowWords, placeRowGo, rowWide]

/-- C3: refuted. With a single scan line whose bounds are `(0, 10)` and no
margin, the final width guard `if self.left and self.right and ...` treats
the left bound 0 as falsy, so the block row's width is 0 although both
bounds exist and `max(0, right - left) = 10`. -/
theorem c3_zero_left_bound_collapses_width :
    blockRowOf (getPixelRowBounds pZ) 0 0 1
      = .ok ⟨0, 1, some 0, some 10, 0⟩ ∧
    max 0 ((10 : Int) - 0) = 10 := by
  decide

/-- C4: refuted for rows below `y_min`. On `pNW` (scan over y ∈ [0, 4)),
querying row `-1` hits Python's negative indexing: the code returns row 3's
bounds instead of signalling `InvalidRowError`; only queries at or above
`y_max` produce the error. -/
theorem c4_negative_row_returns_other_rows_bounds :
    getPixelRowBounds pNW (0 - 1) = .ok (some (1, some 5)) ∧
    getPixelRowBounds pNW 3 = .ok (some (1, some 5)) ∧
    getPixelRowBounds pNW 4 = .error .invalidRow := by
  decide

/-- C5: refuted. On the single-column selection `pCol` every scanned row
records the bounds `(3, None)`; building the central block row then
evaluates `None - horizontal_offset`, so the invocation escapes with an
untyped `TypeError` rather than one of the three typed failures. -/
theorem c5_untyped_type_error_escapes :
    layout pCol [1] = .error .typeError ∧
    PyErr.typeError ∉ [PyErr.noSelection, PyErr.invalidRow,
      PyErr.selectionSize] := by
  decide

/-- C6: refuted. On the diamond mask the single word of width 10 fits only
the central band (width 12 ≥ 10, so the smallest feasible odd prefix is one
band), yet `_get_min_num_rows` returns 2 — its parity conditionals are
swapped between the odd and even loops — and the layout commits via the
candidate n = 3, not n = 1. -/
theorem c6_diamond_min_rows_is_two :
    computeBlockRows pDia = .ok (oddDia, evenDia) ∧
    (10 : Int) ≤ rowDiaC.width ∧
    getMinNumRows oddDia evenDia (List.sum [10]) = some 2 ∧
    packWords 1 (getBlockRows oddDia evenDia 2) [10] = .ok none ∧
    packWords 1 (getBlockRows oddDia evenDia 3) [10]
      = .ok (some [(rowDiaC, [10])]) ∧
    layout pDia [10] = .ok [(rowDiaC, [10])] := by
  decide

/-- C7: refuted. Over `maskMono` with no margin, the block row spanning
only scan line 0 gets width 0 (its left bound 0 is treated as unset by the
truthiness check), while the wider block row spanning scan lines 0-1 gets
width 7: widening the row span strictly increased the width. -/
theorem c7_width_monotonicity_fails :
    blockRowOf (getPixelRowBounds pMono) 0 0 1
      = .ok ⟨0, 1, some 0, some 10, 0⟩ ∧
    blockRowOf (getPixelRowBounds pMono) 0 0 2
      = .ok ⟨0, 2, some 2, some 9, 7⟩ ∧
    ¬ ((7 : Int) ≤ 0) := by
  decide

/-- C9: refuted. For `maskQ` with declared rectangle x ∈ [1, 3), y ∈ [0, 1),
the backward scan starts at `x = x_max = 3`, so the scan issues the query
`(3, 0)`, which is not strictly inside the rectangle. -/
theorem c9_backward_scan_queries_x_max :
    scanQueries maskQ 1 3 0 1 = [(1, 0), (3, 0), (2, 0)] ∧
    ((3 : Int), (0 : Int)) ∈ scanQueries maskQ 1 3 0 1 ∧
    ¬ ((3 : Int) < 3) := by
  decide

/-- C10: refuted. On the single-column selection `pCol` (only on-pixels at
`x = x_min = 3`) the backward scan, which never tests `x_min` itself, finds
nothing, and every cached entry is the malformed pair `(3, None)` — a left
bound with the right component missing. -/
theorem c10_scan_records_half_bounds :
    computePixelRowBounds pCol
      = [some (3, none), some (3, none), some (3, none), some (3, none)] ∧
    some ((3 : Int), (none : Option Int)) ∈ computePixelRowBounds pCol := by
  decide
